import Mathlib

/-!
Verification of the markdown front-matter extraction and blog-post
aggregation pipeline (`src/routes/blog/+page.server.ts`): the
`parseFrontmatter` function and the `load` function are embedded as
executable Lean definitions over `List Char`, and the specified
properties are proved about them.
-/

set_option maxRecDepth 4000

/-- Shorthand: the character list of a string literal. -/
def cs (s : String) : List Char := s.data

/-- The JavaScript whitespace class: the characters matched by the regex
class `\s` and removed by `String.prototype.trim` (WhiteSpace and
LineTerminator code points). -/
def jsWhitespaceB (c : Char) : Bool :=
  decide (c.toNat = 32 ∨ c.toNat = 9 ∨ c.toNat = 10 ∨ c.toNat = 11 ∨
    c.toNat = 12 ∨ c.toNat = 13 ∨ c.toNat = 160 ∨ c.toNat = 5760 ∨
    (8192 ≤ c.toNat ∧ c.toNat ≤ 8202) ∨ c.toNat = 8232 ∨ c.toNat = 8233 ∨
    c.toNat = 8239 ∨ c.toNat = 8287 ∨ c.toNat = 12288 ∨ c.toNat = 65279)

/-- JavaScript `String.prototype.trim`: drop whitespace from both ends. -/
def jsTrim (l : List Char) : List Char :=
  ((l.dropWhile jsWhitespaceB).reverse.dropWhile jsWhitespaceB).reverse

/-- JavaScript `str.split('\n')` on a character list
(`"".split` gives `[""]`, a trailing separator yields a final `""`). -/
def splitNl : List Char → List (List Char)
  | [] => [[]]
  | c :: r =>
    if c = '\n' then [] :: splitNl r
    else
      match splitNl r with
      | [] => [[c]]
      | h :: t => (c :: h) :: t

/-- A non-NaN JavaScript number value.  Finite values are modelled as exact
rationals (binary floating-point rounding is irrelevant to the small
integers appearing in front matter); the infinities are kept so that
`Number("Infinity")` still counts as numeric. -/
inductive JsNum where
  | val : ℚ → JsNum
  | posInf : JsNum
  | negInf : JsNum
deriving DecidableEq

/-- JavaScript unary minus on a number. -/
def JsNum.neg : JsNum → JsNum
  | .val q => .val (-q)
  | .posInf => .negInf
  | .negInf => .posInf

/-- Decimal digit run to a natural number. -/
def digitsToNat (l : List Char) : Nat :=
  l.foldl (fun a c => a * 10 + (c.toNat - 48)) 0

/-- Value of one hexadecimal digit (also used for octal and binary runs). -/
def hexVal (c : Char) : Nat :=
  if c.isDigit then c.toNat - 48
  else if 'a' ≤ c ∧ c ≤ 'f' then c.toNat - 87
  else if 'A' ≤ c ∧ c ≤ 'F' then c.toNat - 55
  else 0

def isHexDigitB (c : Char) : Bool :=
  c.isDigit || decide ('a' ≤ c ∧ c ≤ 'f') || decide ('A' ≤ c ∧ c ≤ 'F')

def isOctDigitB (c : Char) : Bool := decide ('0' ≤ c ∧ c ≤ '7')

def isBinDigitB (c : Char) : Bool := c = '0' || c = '1'

/-- Digit run in a given radix to a natural number. -/
def radixToNat (base : Nat) (l : List Char) : Nat :=
  l.foldl (fun a c => a * base + hexVal c) 0

/-- The optional exponent part of a decimal string numeric literal:
empty input means exponent `0`; otherwise `e`/`E`, an optional sign and a
nonempty digit run must consume the whole input. -/
def parseExpPart (l : List Char) : Option Int :=
  match l with
  | [] => some 0
  | c :: r =>
    if c = 'e' ∨ c = 'E' then
      match r with
      | '+' :: r2 =>
        if r2 ≠ [] ∧ r2.all Char.isDigit then some (digitsToNat r2 : Int) else none
      | '-' :: r2 =>
        if r2 ≠ [] ∧ r2.all Char.isDigit then some (-(digitsToNat r2 : Int)) else none
      | r2 =>
        if r2 ≠ [] ∧ r2.all Char.isDigit then some (digitsToNat r2 : Int) else none
    else none

/-- The mantissa `digits [. digits]` of a decimal string numeric literal:
returns the digit string read as an integer, the number of fractional
digits, and the unconsumed rest (the mantissa value is the first
component divided by ten to the second). -/
def parseDecMantissa (l : List Char) : Option (Nat × Nat × List Char) :=
  let ip := l.takeWhile Char.isDigit
  let r := l.dropWhile Char.isDigit
  match r with
  | '.' :: r2 =>
    let fp := r2.takeWhile Char.isDigit
    let r3 := r2.dropWhile Char.isDigit
    if ip = [] ∧ fp = [] then none
    else some (digitsToNat (ip ++ fp), fp.length, r3)
  | _ => if ip = [] then none else some (digitsToNat ip, 0, r)

/-- The rational value `m / 10^f * 10^e` of a decimal literal with digit
string `m`, `f` fractional digits and exponent `e`, computed with integer
arithmetic only. -/
def decValue (m f : Nat) (e : Int) : ℚ :=
  if 0 ≤ e - (f : Int) then (((m : Int) * 10 ^ (e - (f : Int)).toNat : Int) : ℚ)
  else mkRat m (10 ^ ((f : Int) - e).toNat)

/-- An unsigned decimal numeric literal or `Infinity`. -/
def parseUnsigned (l : List Char) : Option JsNum :=
  if l = cs "Infinity" then some JsNum.posInf
  else
    match parseDecMantissa l with
    | none => none
    | some (m, f, rest) =>
      (parseExpPart rest).map (fun e => JsNum.val (decValue m f e))

/-- A nonempty digit run in the given radix consuming the whole input. -/
def parseRadix (base : Nat) (isD : Char → Bool) (l : List Char) : Option JsNum :=
  if l ≠ [] ∧ l.all isD then some (JsNum.val (radixToNat base l : ℚ)) else none

/-- The ECMAScript `StringNumericLiteral` grammar after trimming:
empty means `0`; an optional sign followed by a decimal literal or
`Infinity`; or an unsigned `0x`/`0o`/`0b` radix literal.  `none` means the
string converts to NaN. -/
def jsStrNum (t : List Char) : Option JsNum :=
  match t with
  | [] => some (JsNum.val 0)
  | '+' :: r => parseUnsigned r
  | '-' :: r => (parseUnsigned r).map JsNum.neg
  | '0' :: x :: r =>
    if x = 'x' ∨ x = 'X' then parseRadix 16 isHexDigitB r
    else if x = 'o' ∨ x = 'O' then parseRadix 8 isOctDigitB r
    else if x = 'b' ∨ x = 'B' then parseRadix 2 isBinDigitB r
    else parseUnsigned t
  | _ => parseUnsigned t

/-- JavaScript `Number(s)` for a string: trim, then the string numeric
literal grammar; `some` exactly when the result is not NaN. -/
def jsNumber (s : List Char) : Option JsNum := jsStrNum (jsTrim s)

/-- A value stored in the frontmatter record.  The TypeScript type is
`Record<string, string | number | boolean>`, so a boolean constructor is
part of the value type even though `parseFrontmatter` may never produce
it. -/
inductive FMValue where
  | str : List Char → FMValue
  | num : JsNum → FMValue
  | bool : Bool → FMValue
deriving DecidableEq

/-- `true` unless the value is a boolean. -/
def FMValue.isStrOrNum : FMValue → Bool
  | .bool _ => false
  | _ => true

/-- A JavaScript object with string keys, in insertion order. -/
abbrev FieldMap := List (List Char × FMValue)

/-- JavaScript property assignment `obj[k] = v`: overwrite in place if the
key exists, else append. -/
def fmInsert (m : FieldMap) (k : List Char) (v : FMValue) : FieldMap :=
  match m with
  | [] => [(k, v)]
  | (k', v') :: r => if k' = k then (k', v) :: r else (k', v') :: fmInsert r k v

/-- JavaScript property read `obj[k]`: `none` models `undefined`. -/
def fmGet (m : FieldMap) (k : List Char) : Option FMValue :=
  (m.find? (fun p => decide (p.1 = k))).map (fun p => p.2)

/-- Lines 42–47 of the source: strip the surrounding quotes
(`value.slice(1, -1)`) when the value starts and ends with `"` or starts
and ends with `'`. -/
def stripQuotes (value : List Char) : List Char :=
  if (value.head? = some '"' ∧ value.getLast? = some '"') ∨
     (value.head? = some '\'' ∧ value.getLast? = some '\'') then
    (value.drop 1).dropLast
  else value

/-- Lines 49–54 of the source: store `Number(value)` when
`!isNaN(Number(value)) && value !== ''`, else store the string. -/
def coerceValue (value : List Char) : FMValue :=
  match jsNumber value with
  | some n => if value ≠ [] then FMValue.num n else FMValue.str value
  | none => FMValue.str value

/-- Lines 36–56 of the source: process one header line into the record.
A line is used when its trim is nonempty and contains `:`; the key is the
trimmed text before the first `:`, the value the trimmed text after it
(later colons preserved), then quote-stripped and numerically coerced. -/
def processLine (m : FieldMap) (line : List Char) : FieldMap :=
  if jsTrim line ≠ [] ∧ ':' ∈ jsTrim line then
    fmInsert m (jsTrim ((jsTrim line).takeWhile (fun c => c != ':')))
      (coerceValue (stripQuotes (jsTrim (((jsTrim line).dropWhile (fun c => c != ':')).drop 1))))
  else m

/-- Lines 33–56 of the source: split the header text on `'\n'` and fold
every line into the record. -/
def buildFM (frontmatterText : List Char) : FieldMap :=
  (splitNl frontmatterText).foldl processLine []

/-- Length of the maximal leading whitespace run. -/
def wsRun : List Char → Nat
  | [] => 0
  | c :: r => if jsWhitespaceB c then wsRun r + 1 else 0

/-- All ways to consume `\s*\n` at the front of `l`, in the backtracking
priority order of a greedy `\s*`: the longest whitespace run that is
followed by `'\n'` first.  Each returned list is the rest of the input
after the consumed `\s*\n`. -/
def spacesNlCands (l : List Char) : List (List Char) :=
  ((List.range (wsRun l + 1)).reverse).filterMap (fun k =>
    match l.drop k with
    | '\n' :: rest => some rest
    | _ => none)

/-- The regex of line 23 of the source,
`/^---\s*\n([\s\S]*?)\n---\s*\n([\s\S]*)$/`, as a backtracking matcher
returning the two capture groups: a leading `---`, a greedy `\s*\n`, a
lazy group 1 (shortest first), a literal `\n---`, a greedy `\s*\n`, and
group 2 taking the whole rest. -/
def fmMatch (content : List Char) : Option (List Char × List Char) :=
  match content with
  | '-' :: '-' :: '-' :: after =>
    (spacesNlCands after).findSome? (fun rest1 =>
      (List.range (rest1.length + 1)).findSome? (fun i =>
        match rest1.drop i with
        | '\n' :: '-' :: '-' :: '-' :: after2 =>
          (spacesNlCands after2).findSome? (fun rest2 =>
            some (rest1.take i, rest2))
        | _ => none))
  | _ => none

/-- The result type of `parseFrontmatter` (the `MarkdownContent`
interface of the source). -/
structure MarkdownContent where
  frontmatter : FieldMap
  body : List Char
deriving DecidableEq

/-- Lines 22–59 of the source: `parseFrontmatter`.  On a regex match the
frontmatter record is built from group 1 and the body is group 2; with no
match the record is empty and the body is the whole input. -/
def parseFrontmatter (content : List Char) : MarkdownContent :=
  match fmMatch content with
  | none => { frontmatter := [], body := content }
  | some (fmText, body) => { frontmatter := buildFM fmText, body := body }

/-- Gregorian leap year. -/
def isLeap (y : Int) : Bool :=
  (decide (y % 4 = 0) && decide (y % 100 ≠ 0)) || decide (y % 400 = 0)

def daysInMonth (y m : Int) : Int :=
  if m = 2 then (if isLeap y then 29 else 28)
  else if m = 4 ∨ m = 6 ∨ m = 9 ∨ m = 11 then 30
  else 31

/-- Days from 1970-01-01 to the civil date `y-m-d` (the standard
era-based calendar algorithm, exact for all Gregorian dates). -/
def daysFromCivil (y m d : Int) : Int :=
  let yy := if m ≤ 2 then y - 1 else y
  let era := (if 0 ≤ yy then yy else yy - 399) / 400
  let yoe := yy - era * 400
  let mp := (m + 9) % 12
  let doy := (153 * mp + 2) / 5 + d - 1
  let doe := yoe * 365 + yoe / 4 - yoe / 100 + doy
  era * 146097 + doe - 719468

/-- Modelled `new Date(s).getTime()` restricted to the date-only ISO form
`YYYY-MM-DD` used by the content: milliseconds since the epoch at UTC
midnight, `none` (NaN, an invalid date) for out-of-range components or any
other shape of string. -/
def jsDateParse (s : List Char) : Option Int :=
  match s with
  | [y1, y2, y3, y4, h1, m1, m2, h2, d1, d2] =>
    if h1 = '-' ∧ h2 = '-' ∧ y1.isDigit ∧ y2.isDigit ∧ y3.isDigit ∧ y4.isDigit ∧
       m1.isDigit ∧ m2.isDigit ∧ d1.isDigit ∧ d2.isDigit then
      let y : Int := (digitsToNat [y1, y2, y3, y4] : Int)
      let m : Int := (digitsToNat [m1, m2] : Int)
      let d : Int := (digitsToNat [d1, d2] : Int)
      if 1 ≤ m ∧ m ≤ 12 ∧ 1 ≤ d ∧ d ≤ daysInMonth y m then
        some (86400000 * daysFromCivil y m d)
      else none
    else none
  | _ => none

/-- The `BlogPost` interface of the source. -/
structure BlogPost where
  slug : List Char
  title : List Char
  description : List Char
  date : List Char
  readingTime : JsNum
  category : List Char
  featured : Bool
deriving DecidableEq

/-- Lines 80–91 of the source: build one `BlogPost` from the extracted
frontmatter, with the `typeof` checks and defaults; `today` is the value
of `new Date().toISOString().split('T')[0]`. -/
def mkBlogPost (slug : List Char) (frontmatter : FieldMap) (today : List Char) : BlogPost :=
  { slug := slug
    title :=
      match fmGet frontmatter (cs "title") with
      | some (.str s) => s
      | _ => cs "Untitled"
    description :=
      match fmGet frontmatter (cs "description") with
      | some (.str s) => s
      | _ => []
    date :=
      match fmGet frontmatter (cs "date") with
      | some (.str s) => s
      | _ => today
    readingTime :=
      match fmGet frontmatter (cs "readingTime") with
      | some (.num n) => n
      | _ => JsNum.val 5
    category :=
      match fmGet frontmatter (cs "category") with
      | some (.str s) => s
      | _ => cs "General"
    featured :=
      match fmGet frontmatter (cs "featured") with
      | some (.bool b) => b
      | _ => false }

/-- One entry returned by `readdir(blogDir, { withFileTypes: true })`. -/
structure DirEntry where
  name : List Char
  isDirectory : Bool

/-- The filesystem as `load` observes it: `rootEntries` is the result of
enumerating the blog directory (`none` models a rejected `readdir`
promise), and `readFile` gives the content of `<slug>/+page.md`
(`none` models a rejected `readFile` promise). -/
structure FileSystem where
  rootEntries : Option (List DirEntry)
  readFile : List Char → Option (List Char)

/-- Lines 73–97 of the source: the per-subdirectory loop.  A failing read
is caught, logged and skipped; a successful read is parsed and turned
into a `BlogPost`. -/
def scanPosts (fs : FileSystem) (today : List Char) (dirs : List (List Char)) : List BlogPost :=
  dirs.filterMap (fun slug =>
    match fs.readFile slug with
    | none => none
    | some content => some (mkBlogPost slug (parseFrontmatter content).frontmatter today))

/-- The comparator of line 99,
`(a, b) => new Date(b.date).getTime() - new Date(a.date).getTime()`, as a
"not after" test: `a` may stay before `b` when the comparator result is
`≤ 0`; a NaN comparator result is treated as `+0` (equal), as the
ECMAScript sort specification prescribes. -/
def jsLe (a b : BlogPost) : Bool :=
  match jsDateParse a.date, jsDateParse b.date with
  | some x, some y => decide (y - x ≤ 0)
  | _, _ => true

/-- Insert an element into a list, before the first element it need not
come after. -/
def sortInsert (le : BlogPost → BlogPost → Bool) (x : BlogPost) :
    List BlogPost → List BlogPost
  | [] => [x]
  | y :: ys => if le x y then x :: y :: ys else y :: sortInsert le x ys

/-- Line 99 of the source, `blogPosts.sort(...)`: ECMAScript requires
`Array.prototype.sort` to be stable, so it is modelled as a stable
insertion sort with the source's comparator (for a consistent comparator
a stable sort's output is unique, so the choice of stable algorithm is
immaterial). -/
def jsSortPosts : List BlogPost → List BlogPost
  | [] => []
  | x :: xs => sortInsert jsLe x (jsSortPosts xs)

/-- Lines 61–108 of the source: `load`.  If enumerating the blog
directory fails the whole call throws `error(500, ...)`; otherwise each
subdirectory is scanned (per-file failures skipped) and the collected
posts are sorted by the date comparator. -/
def load (fs : FileSystem) (today : List Char) :
    Except (Nat × List Char) (List BlogPost) :=
  match fs.rootEntries with
  | none => .error (500, cs "Failed to load blog posts")
  | some entries =>
    let blogDirs := (entries.filter (fun e => e.isDirectory)).map (fun e => e.name)
    let blogPosts := scanPosts fs today blogDirs
    .ok (jsSortPosts blogPosts)

/-! ## Lemmas about the delimiter matcher -/

/-- A string consisting solely of JavaScript whitespace. -/
def wsOnly (l : List Char) : Prop := ∀ c ∈ l, jsWhitespaceB c = true

/-- The exact shape of a document matched by the frontmatter regex with
captures `g1` and `g2`: `---`, whitespace, a newline, group 1, a newline,
`---`, whitespace, a newline, group 2. -/
def delimShape (w1 g1 w2 g2 : List Char) : List Char :=
  '-' :: '-' :: '-' ::
    (w1 ++ '\n' :: (g1 ++ '\n' :: '-' :: '-' :: '-' :: (w2 ++ '\n' :: g2)))

/-- The document contains the leading `---` delimiter line followed by a
later closing `---` delimiter line (each possibly padded by whitespace),
i.e. some decomposition witnesses a match of the frontmatter regex. -/
def hasDelimiterPair (content : List Char) : Prop :=
  ∃ w1 g1 w2 g2, wsOnly w1 ∧ wsOnly w2 ∧ content = delimShape w1 g1 w2 g2

theorem wsOnly_take_of_le_wsRun :
    ∀ (l : List Char) (k : Nat), k ≤ wsRun l → wsOnly (l.take k) := by
  intro l
  induction l with
  | nil => intro k _; simp [wsOnly]
  | cons a r ih =>
    intro k hk c hc
    cases k with
    | zero => simp at hc
    | succ k' =>
      rw [wsRun] at hk
      by_cases ha : jsWhitespaceB a
      · rw [if_pos ha] at hk
        rw [List.take_succ_cons] at hc
        rcases List.mem_cons.mp hc with hc | hc
        · rw [hc]; exact ha
        · exact ih k' (Nat.succ_le_succ_iff.mp hk) c hc
      · rw [if_neg ha] at hk
        exact absurd hk (by omega)

theorem spacesNlCands_sound {l r : List Char} (h : r ∈ spacesNlCands l) :
    ∃ w, wsOnly w ∧ l = w ++ '\n' :: r := by
  unfold spacesNlCands at h
  rw [List.mem_filterMap] at h
  obtain ⟨k, hk, hfk⟩ := h
  rw [List.mem_reverse, List.mem_range] at hk
  split at hfk
  next rest heq =>
    injection hfk with hr
    subst hr
    refine ⟨l.take k, wsOnly_take_of_le_wsRun l k (Nat.lt_succ_iff.mp hk), ?_⟩
    conv_lhs => rw [← List.take_append_drop k l]
    rw [heq]
  next => exact absurd hfk (by simp)

theorem fmMatch_sound {content g1 g2 : List Char}
    (h : fmMatch content = some (g1, g2)) :
    ∃ w1 w2, wsOnly w1 ∧ wsOnly w2 ∧ content = delimShape w1 g1 w2 g2 := by
  unfold fmMatch at h
  split at h
  next after =>
    obtain ⟨rest1, hr1mem, hF⟩ := List.exists_of_findSome?_eq_some h
    obtain ⟨i, _, hG⟩ := List.exists_of_findSome?_eq_some hF
    split at hG
    next after2 heq2 =>
      obtain ⟨rest2, hr2mem, hsome⟩ := List.exists_of_findSome?_eq_some hG
      injection hsome with hpair
      have hg1 : rest1.take i = g1 := congrArg Prod.fst hpair
      have hg2 : rest2 = g2 := congrArg Prod.snd hpair
      obtain ⟨w1, hw1, he1⟩ := spacesNlCands_sound hr1mem
      obtain ⟨w2, hw2, he2⟩ := spacesNlCands_sound hr2mem
      refine ⟨w1, w2, hw1, hw2, ?_⟩
      have hrest1 : rest1 = g1 ++ '\n' :: '-' :: '-' :: '-' :: after2 := by
        conv_lhs => rw [← List.take_append_drop i rest1]
        rw [heq2, hg1]
      rw [delimShape, he1, hrest1, he2, hg2]
    next => exact absurd hG (by simp)
  next => exact absurd h (by simp)

theorem parseFrontmatter_of_not_pair {content : List Char}
    (h : ¬ hasDelimiterPair content) :
    parseFrontmatter content = { frontmatter := [], body := content } := by
  unfold parseFrontmatter
  cases hm : fmMatch content with
  | none => rfl
  | some p =>
    obtain ⟨g1, g2⟩ := p
    obtain ⟨w1, w2, hw1, hw2, heq⟩ := fmMatch_sound hm
    exact absurd ⟨w1, g1, w2, g2, hw1, hw2, heq⟩ h

/-! ## C5, C9, C10: extractor shape properties -/

/-- C5: for every input document that lacks the leading `---` delimiter
line followed by a later `---` delimiter line (no decomposition matches
the delimiter pattern), the extractor returns an empty FieldMap and a
body identical to the entire input, and no error is possible since
`parseFrontmatter` is total. -/
theorem no_delimiters_empty_map_full_body :
    ∀ content : List Char, ¬ hasDelimiterPair content →
      parseFrontmatter content = { frontmatter := [], body := content } := by
  intro content h
  exact parseFrontmatter_of_not_pair h

theorem no_delimiters_empty_map_full_body_witness :
    parseFrontmatter (cs "hello world") =
      { frontmatter := [], body := cs "hello world" } := by
  apply no_delimiters_empty_map_full_body
  rintro ⟨w1, g1, w2, g2, -, -, heq⟩
  have h2 := congrArg List.head? heq
  simp only [delimShape, List.head?_cons] at h2
  exact absurd h2 (by decide)

/-- C9: a document whose closing `---` is not followed by a newline is
treated as having no frontmatter, because the delimiter pattern requires
a newline after the closing `---`: for any header text without a newline,
the document `---\n<header>\n---` (ending exactly in `---` with no
trailing newline) yields an empty FieldMap and the whole input as body;
in particular so does `---\ntitle: Hello\n---`. -/
theorem closing_delimiter_needs_newline :
    (∀ header : List Char, '\n' ∉ header →
      parseFrontmatter (cs "---" ++ '\n' :: header ++ '\n' :: cs "---") =
        { frontmatter := [],
          body := cs "---" ++ '\n' :: header ++ '\n' :: cs "---" }) ∧
    parseFrontmatter (cs "---\ntitle: Hello\n---") =
      { frontmatter := [], body := cs "---\ntitle: Hello\n---" } := by
  constructor
  · intro header hh
    apply parseFrontmatter_of_not_pair
    rintro ⟨w1, g1, w2, g2, -, -, heq⟩
    have hc := congrArg (List.count '\n') heq
    have hzero : List.count '\n' header = 0 := List.count_eq_zero.mpr hh
    have hdash : List.count '\n' (cs "---") = 0 := by decide
    simp only [delimShape, List.count_append, List.count_cons_self,
      List.count_cons, hzero, hdash] at hc
    simp at hc
    omega
  · decide

theorem closing_delimiter_needs_newline_witness :
    parseFrontmatter (cs "---" ++ '\n' :: cs "title: Hello" ++ '\n' :: cs "---") =
      { frontmatter := [],
        body := cs "---" ++ '\n' :: cs "title: Hello" ++ '\n' :: cs "---" } :=
  closing_delimiter_needs_newline.1 (cs "title: Hello") (by decide)

/-- C10: for every input string the body returned by the extractor is a
contiguous trailing substring (suffix) of the input: the entire input
when no delimiter pair is found, and exactly the text after the closing
delimiter line otherwise. -/
theorem body_is_suffix_of_input :
    ∀ content : List Char, (parseFrontmatter content).body <:+ content := by
  intro content
  unfold parseFrontmatter
  cases hm : fmMatch content with
  | none => exact List.suffix_refl content
  | some p =>
    obtain ⟨g1, g2⟩ := p
    obtain ⟨w1, w2, -, -, heq⟩ := fmMatch_sound hm
    rw [heq]
    refine ⟨'-' :: '-' :: '-' ::
      (w1 ++ '\n' :: (g1 ++ '\n' :: '-' :: '-' :: '-' :: (w2 ++ ['\n']))), ?_⟩
    simp [delimShape]

/-! ## C8: the extractor never stores a boolean -/

theorem fmInsert_all {p : List Char × FMValue → Bool} {m : FieldMap}
    {k : List Char} {v : FMValue}
    (hm : m.all p = true) (hv : p (k, v) = true) :
    (fmInsert m k v).all p = true := by
  induction m with
  | nil => simp [fmInsert, hv]
  | cons a r ih =>
    rw [List.all_cons, Bool.and_eq_true] at hm
    obtain ⟨k', v'⟩ := a
    unfold fmInsert
    split
    next h =>
      simp only [List.all_cons, Bool.and_eq_true]
      exact ⟨by rw [h]; exact hv, hm.2⟩
    next =>
      simp only [List.all_cons, Bool.and_eq_true]
      exact ⟨hm.1, ih hm.2⟩

theorem coerceValue_isStrOrNum (v : List Char) :
    (coerceValue v).isStrOrNum = true := by
  unfold coerceValue
  split
  · split <;> rfl
  · rfl

theorem processLine_all_isStrOrNum {m : FieldMap} (line : List Char)
    (hm : m.all (fun kv => kv.2.isStrOrNum) = true) :
    (processLine m line).all (fun kv => kv.2.isStrOrNum) = true := by
  unfold processLine
  split
  · exact fmInsert_all hm (coerceValue_isStrOrNum _)
  · exact hm

theorem buildFM_all_isStrOrNum (t : List Char) :
    (buildFM t).all (fun kv => kv.2.isStrOrNum) = true := by
  unfold buildFM
  generalize splitNl t = lines
  have h : ∀ (ls : List (List Char)) (m : FieldMap),
      m.all (fun kv => kv.2.isStrOrNum) = true →
      (ls.foldl processLine m).all (fun kv => kv.2.isStrOrNum) = true := by
    intro ls
    induction ls with
    | nil => intro m hm; exact hm
    | cons a r ih =>
      intro m hm
      exact ih _ (processLine_all_isStrOrNum a hm)
  exact h lines [] (by simp)

theorem parseFrontmatter_all_isStrOrNum (content : List Char) :
    (parseFrontmatter content).frontmatter.all (fun kv => kv.2.isStrOrNum) = true := by
  unfold parseFrontmatter
  cases fmMatch content with
  | none => rfl
  | some p =>
    obtain ⟨a, b⟩ := p
    exact buildFM_all_isStrOrNum a

theorem fmGet_isStrOrNum {m : FieldMap} {k : List Char} {v : FMValue}
    (hall : m.all (fun kv => kv.2.isStrOrNum) = true)
    (hget : fmGet m k = some v) : v.isStrOrNum = true := by
  unfold fmGet at hget
  cases hf : m.find? (fun p => decide (p.1 = k)) with
  | none => rw [hf] at hget; simp at hget
  | some kv =>
    rw [hf] at hget
    have hv : kv.2 = v := by simpa using hget
    rw [← hv]
    exact List.all_eq_true.mp hall kv (List.mem_of_find?_eq_some hf)

theorem mkBlogPost_featured_false {fm : FieldMap}
    (hall : fm.all (fun kv => kv.2.isStrOrNum) = true)
    (slug today : List Char) :
    (mkBlogPost slug fm today).featured = false := by
  show (match fmGet fm (cs "featured") with
    | some (.bool b) => b
    | _ => false) = false
  cases hg : fmGet fm (cs "featured") with
  | none => rfl
  | some v =>
    cases v with
    | str s => rfl
    | num n => rfl
    | bool b => exact absurd (fmGet_isStrOrNum hall hg) (by simp [FMValue.isStrOrNum])

/-! ## Lemmas about the aggregator -/

theorem sortInsert_perm (le : BlogPost → BlogPost → Bool) (x : BlogPost)
    (l : List BlogPost) : (sortInsert le x l).Perm (x :: l) := by
  induction l with
  | nil => exact List.Perm.refl _
  | cons y ys ih =>
    unfold sortInsert
    split
    · exact List.Perm.refl _
    · exact (ih.cons y).trans (List.Perm.swap x y ys)

theorem jsSortPosts_perm (l : List BlogPost) : (jsSortPosts l).Perm l := by
  induction l with
  | nil => exact List.Perm.refl _
  | cons x xs ih =>
    exact (sortInsert_perm jsLe x (jsSortPosts xs)).trans (ih.cons x)

theorem mem_scanPosts_iff {fs : FileSystem} {today : List Char}
    {dirs : List (List Char)} {p : BlogPost} :
    p ∈ scanPosts fs today dirs ↔
      ∃ slug ∈ dirs, ∃ content, fs.readFile slug = some content ∧
        p = mkBlogPost slug (parseFrontmatter content).frontmatter today := by
  unfold scanPosts
  rw [List.mem_filterMap]
  constructor
  · rintro ⟨slug, hs, hf⟩
    cases hc : fs.readFile slug with
    | none => rw [hc] at hf; exact absurd hf (by simp)
    | some content =>
      rw [hc] at hf
      injection hf with hp
      exact ⟨slug, hs, content, hc, hp.symm⟩
  · rintro ⟨slug, hs, content, hc, hp⟩
    refine ⟨slug, hs, ?_⟩
    rw [hc, hp]

theorem load_ok_eq {fs : FileSystem} {today : List Char}
    {entries : List DirEntry} (h : fs.rootEntries = some entries) :
    load fs today = .ok (jsSortPosts (scanPosts fs today
      ((entries.filter (fun e => e.isDirectory)).map (fun e => e.name)))) := by
  unfold load
  rw [h]

/-- C8: every value the extractor stores in the FieldMap is a string or a
number, never a boolean; consequently every `BlogPost` produced by `load`
has `featured = false` regardless of the header (the boolean `typeof`
check can never succeed). -/
theorem extractor_never_boolean_featured_always_false :
    ∀ (content : List Char) (fs : FileSystem) (today : List Char)
      (posts : List BlogPost),
      ((parseFrontmatter content).frontmatter.all
        (fun kv => kv.2.isStrOrNum) = true) ∧
      (load fs today = .ok posts → ∀ p ∈ posts, p.featured = false) := by
  intro content fs today posts
  refine ⟨parseFrontmatter_all_isStrOrNum content, ?_⟩
  intro hload p hp
  cases hroot : fs.rootEntries with
  | none =>
    unfold load at hload
    rw [hroot] at hload
    exact absurd hload (by simp)
  | some entries =>
    rw [load_ok_eq hroot] at hload
    injection hload with hposts
    rw [← hposts] at hp
    have hscan := (jsSortPosts_perm _).mem_iff.mp hp
    obtain ⟨slug, -, c, -, hpeq⟩ := mem_scanPosts_iff.mp hscan
    rw [hpeq]
    exact mkBlogPost_featured_false (parseFrontmatter_all_isStrOrNum c) slug today

/-- The `featured: true` document used in concrete checks (the shape of
`src/routes/blog/svelte-4-vs-.../+page.md`). -/
def dC8 : List Char := cs "---\nfeatured: true\n---\nSome body"

def fsC8 : FileSystem :=
  { rootEntries := some [{ name := cs "a", isDirectory := true }]
    readFile := fun slug => if slug = cs "a" then some dC8 else none }

def todayW : List Char := cs "2026-10-12"

def postC8 : BlogPost :=
  { slug := cs "a", title := cs "Untitled", description := []
    date := todayW, readingTime := JsNum.val 5, category := cs "General"
    featured := false }

theorem extractor_never_boolean_featured_always_false_witness :
    ((parseFrontmatter dC8).frontmatter.all (fun kv => kv.2.isStrOrNum) = true) ∧
    postC8.featured = false :=
  ⟨(extractor_never_boolean_featured_always_false dC8 fsC8 todayW [postC8]).1,
    (extractor_never_boolean_featured_always_false dC8 fsC8 todayW [postC8]).2
      (by rfl) postC8 (by simp)⟩

/-! ## C2: root enumeration failure is fatal -/

/-- C2: if enumerating the content root directory itself fails, the whole
listing operation fails with the single reported 500 error rather than
returning an empty or partial list. -/
theorem root_enumeration_failure_is_fatal :
    ∀ (fs : FileSystem) (today : List Char), fs.rootEntries = none →
      load fs today = .error (500, cs "Failed to load blog posts") := by
  intro fs today h
  unfold load
  rw [h]

def fsNoRoot : FileSystem := { rootEntries := none, readFile := fun _ => none }

theorem root_enumeration_failure_is_fatal_witness :
    load fsNoRoot todayW = .error (500, cs "Failed to load blog posts") :=
  root_enumeration_failure_is_fatal fsNoRoot todayW rfl

/-! ## C3: unreadable posts are skipped, readable posts all appear -/

/-- C3: whenever the root enumeration succeeds, `load` succeeds (no
subdirectory failure can abort it); every returned post comes from a
subdirectory entry whose content file was readable, and conversely every
subdirectory whose content file is readable contributes its post to the
result. -/
theorem unreadable_posts_skipped_readable_posts_kept :
    ∀ (fs : FileSystem) (today : List Char) (entries : List DirEntry),
      fs.rootEntries = some entries →
      ∃ posts, load fs today = .ok posts ∧
        (∀ p ∈ posts, ∃ e ∈ entries, e.isDirectory = true ∧ e.name = p.slug ∧
          ∃ content, fs.readFile e.name = some content ∧
            p = mkBlogPost e.name (parseFrontmatter content).frontmatter today) ∧
        (∀ e ∈ entries, e.isDirectory = true →
          ∀ content, fs.readFile e.name = some content →
            ∃ p ∈ posts,
              p = mkBlogPost e.name (parseFrontmatter content).frontmatter today) := by
  intro fs today entries hroot
  refine ⟨_, load_ok_eq hroot, ?_, ?_⟩
  · intro p hp
    have hscan := (jsSortPosts_perm _).mem_iff.mp hp
    obtain ⟨slug, hslug, content, hc, hpeq⟩ := mem_scanPosts_iff.mp hscan
    obtain ⟨e, he, hname⟩ := List.mem_map.mp hslug
    obtain ⟨hemem, hedir⟩ := List.mem_filter.mp he
    refine ⟨e, hemem, hedir, ?_, content, ?_, ?_⟩
    · rw [hname, hpeq, mkBlogPost]
    · rw [hname]; exact hc
    · rw [hname]; exact hpeq
  · intro e he hdir content hc
    refine ⟨mkBlogPost e.name (parseFrontmatter content).frontmatter today, ?_, rfl⟩
    apply (jsSortPosts_perm _).mem_iff.mpr
    apply mem_scanPosts_iff.mpr
    exact ⟨e.name, List.mem_map.mpr ⟨e, List.mem_filter.mpr ⟨he, hdir⟩, rfl⟩,
      content, hc, rfl⟩

/-- Two subdirectories with one unreadable content file, and one
non-directory entry, for the C3 witness. -/
def fsC3 : FileSystem :=
  { rootEntries := some
      [{ name := cs "good", isDirectory := true },
       { name := cs "bad", isDirectory := true },
       { name := cs "file.txt", isDirectory := false }]
    readFile := fun slug =>
      if slug = cs "good" then some (cs "---\ntitle: 'Hi'\n---\nBody") else none }

theorem unreadable_posts_skipped_readable_posts_kept_witness :
    ∃ posts, load fsC3 todayW = .ok posts ∧
      (∀ p ∈ posts, ∃ e ∈ [DirEntry.mk (cs "good") true,
          DirEntry.mk (cs "bad") true, DirEntry.mk (cs "file.txt") false],
        e.isDirectory = true ∧ e.name = p.slug ∧
        ∃ content, fsC3.readFile e.name = some content ∧
          p = mkBlogPost e.name (parseFrontmatter content).frontmatter todayW) ∧
      (∀ e ∈ [DirEntry.mk (cs "good") true, DirEntry.mk (cs "bad") true,
          DirEntry.mk (cs "file.txt") false], e.isDirectory = true →
        ∀ content, fsC3.readFile e.name = some content →
          ∃ p ∈ posts,
            p = mkBlogPost e.name (parseFrontmatter content).frontmatter todayW) :=
  unreadable_posts_skipped_readable_posts_kept fsC3 todayW
    [DirEntry.mk (cs "good") true, DirEntry.mk (cs "bad") true,
      DirEntry.mk (cs "file.txt") false] rfl

/-! ## C1: the `featured: true` header never yields a featured post -/

def dC1 : List Char := cs "---\nfeatured: true\n---\nPost body"

def fsC1 : FileSystem :=
  { rootEntries := some [{ name := cs "post", isDirectory := true }]
    readFile := fun slug => if slug = cs "post" then some dC1 else none }

/-- C1 (code bug evidence): the source stores the header value of a
`featured: true` line as the string `"true"`, so the `typeof ... ===
'boolean'` check at line 90 fails and the produced record has
`featured = false` — contradicting the specified behaviour (and the
repository's own content file and the featured-section rendering in
`+page.svelte`, which expect the flag to come through as `true`). -/
theorem featured_true_line_yields_false_flag :
    fmGet (parseFrontmatter dC1).frontmatter (cs "featured") =
      some (FMValue.str (cs "true")) ∧
    load fsC1 todayW = .ok
      [{ slug := cs "post", title := cs "Untitled", description := []
         date := todayW, readingTime := JsNum.val 5, category := cs "General"
         featured := false }] := by
  exact ⟨by decide, by rfl⟩

/-! ## C4: sorting by parsed date, descending and stable -/

theorem jsLe_total (a b : BlogPost) : jsLe a b = true ∨ jsLe b a = true := by
  unfold jsLe
  cases ha : jsDateParse a.date <;> cases hb : jsDateParse b.date
  · simp
  · simp
  · simp
  · simp
    omega

theorem jsLe_trans {a b c : BlogPost}
    (ha : (jsDateParse a.date).isSome = true)
    (hb : (jsDateParse b.date).isSome = true)
    (hc : (jsDateParse c.date).isSome = true)
    (hab : jsLe a b = true) (hbc : jsLe b c = true) : jsLe a c = true := by
  obtain ⟨x, hx⟩ := Option.isSome_iff_exists.mp ha
  obtain ⟨y, hy⟩ := Option.isSome_iff_exists.mp hb
  obtain ⟨z, hz⟩ := Option.isSome_iff_exists.mp hc
  unfold jsLe at hab hbc ⊢
  rw [hx, hy] at hab
  rw [hy, hz] at hbc
  rw [hx, hz]
  simp at hab hbc ⊢
  omega

theorem pairwise_sortInsert (x : BlogPost) :
    ∀ l : List BlogPost, (∀ p ∈ x :: l, (jsDateParse p.date).isSome = true) →
      l.Pairwise (fun a b => jsLe a b = true) →
      (sortInsert jsLe x l).Pairwise (fun a b => jsLe a b = true) := by
  intro l
  induction l with
  | nil => intro _ _; simp [sortInsert]
  | cons y ys ih =>
    intro hval hl
    unfold sortInsert
    split
    next hxy =>
      rw [List.pairwise_cons]
      refine ⟨?_, hl⟩
      intro z hz
      rcases List.mem_cons.mp hz with hz | hz
      · rw [hz]; exact hxy
      · refine jsLe_trans (hval x (List.mem_cons_self x _))
          (hval y (List.mem_cons_of_mem x (List.mem_cons_self y _)))
          (hval z (List.mem_cons_of_mem x (List.mem_cons_of_mem y hz)))
          hxy ((List.pairwise_cons.mp hl).1 z hz)
    next hxy =>
      have hyx : jsLe y x = true := by
        rcases jsLe_total x y with h | h
        · exact absurd h (by simpa using hxy)
        · exact h
      rw [List.pairwise_cons]
      constructor
      · intro z hz
        have hz' := (sortInsert_perm jsLe x ys).mem_iff.mp hz
        rcases List.mem_cons.mp hz' with hz' | hz'
        · rw [hz']; exact hyx
        · exact (List.pairwise_cons.mp hl).1 z hz'
      · refine ih ?_ (List.pairwise_cons.mp hl).2
        intro p hp
        rcases List.mem_cons.mp hp with hp | hp
        · rw [hp]; exact hval x (List.mem_cons_self x _)
        · exact hval p (List.mem_cons_of_mem x (List.mem_cons_of_mem y hp))

theorem pairwise_jsSortPosts :
    ∀ l : List BlogPost, (∀ p ∈ l, (jsDateParse p.date).isSome = true) →
      (jsSortPosts l).Pairwise (fun a b => jsLe a b = true) := by
  intro l
  induction l with
  | nil => intro _; simp [jsSortPosts]
  | cons x xs ih =>
    intro hval
    unfold jsSortPosts
    apply pairwise_sortInsert
    · intro p hp
      rcases List.mem_cons.mp hp with hp | hp
      · rw [hp]; exact hval x (List.mem_cons_self x xs)
      · exact hval p (List.mem_cons_of_mem x ((jsSortPosts_perm xs).mem_iff.mp hp))
    · exact ih (fun p hp => hval p (List.mem_cons_of_mem x hp))

theorem filter_sortInsert (q : BlogPost → Bool)
    (hq : ∀ a b, q a = true → q b = true → jsLe a b = true)
    (x : BlogPost) (l : List BlogPost) :
    (sortInsert jsLe x l).filter q = (x :: l).filter q := by
  induction l with
  | nil => rfl
  | cons y ys ih =>
    unfold sortInsert
    split
    next => rfl
    next hle =>
      by_cases hqx : q x = true
      · by_cases hqy : q y = true
        · exact absurd (hq x y hqx hqy) (by simpa using hle)
        · simp [List.filter_cons, hqx, hqy, ih]
      · by_cases hqy : q y = true <;> simp [List.filter_cons, hqx, hqy, ih]

theorem filter_jsSortPosts (q : BlogPost → Bool)
    (hq : ∀ a b, q a = true → q b = true → jsLe a b = true)
    (l : List BlogPost) : (jsSortPosts l).filter q = l.filter q := by
  induction l with
  | nil => rfl
  | cons x xs ih =>
    unfold jsSortPosts
    rw [filter_sortInsert q hq x (jsSortPosts xs)]
    simp [List.filter_cons, ih]

/-- Two posts in decreasing parsed-date order: whenever both dates parse,
the later list element's date value is `≤` the earlier one's. -/
def dateDesc (a b : BlogPost) : Prop :=
  ∀ x y : Int, jsDateParse a.date = some x → jsDateParse b.date = some y → y ≤ x

def docA4 : List Char := cs "---\ndate: '2024-01-01'\n---\nA"

def docB4 : List Char := cs "---\ndate: '2024-01-15'\n---\nB"

def docC4 : List Char := cs "---\ndate: '2023-12-01'\n---\nC"

def entriesC4 : List DirEntry :=
  [{ name := cs "a", isDirectory := true },
   { name := cs "b", isDirectory := true },
   { name := cs "c", isDirectory := true }]

def fsC4 : FileSystem :=
  { rootEntries := some entriesC4
    readFile := fun slug =>
      if slug = cs "a" then some docA4
      else if slug = cs "b" then some docB4
      else if slug = cs "c" then some docC4
      else none }

def postA4 : BlogPost :=
  { slug := cs "a", title := cs "Untitled", description := []
    date := cs "2024-01-01", readingTime := JsNum.val 5
    category := cs "General", featured := false }

def postB4 : BlogPost :=
  { slug := cs "b", title := cs "Untitled", description := []
    date := cs "2024-01-15", readingTime := JsNum.val 5
    category := cs "General", featured := false }

def postC4 : BlogPost :=
  { slug := cs "c", title := cs "Untitled", description := []
    date := cs "2023-12-01", readingTime := JsNum.val 5
    category := cs "General", featured := false }

/-- C4: when all post dates are valid, the collection returned by `load`
is sorted by date descending with dates compared as parsed calendar dates,
and posts with equal parsed dates retain their relative order from the
directory scan (the filter at any fixed date value is unchanged by the
sort); concretely, posts dated 2024-01-01, 2024-01-15, 2023-12-01 come
out in the order [2024-01-15, 2024-01-01, 2023-12-01]. -/
theorem sorted_by_parsed_date_descending_and_stable :
    (∀ (fs : FileSystem) (today : List Char) (entries : List DirEntry)
        (posts : List BlogPost),
      fs.rootEntries = some entries → load fs today = .ok posts →
      (∀ p ∈ posts, (jsDateParse p.date).isSome = true) →
      posts.Pairwise dateDesc ∧
      (∀ v : Int,
        posts.filter (fun p => decide (jsDateParse p.date = some v)) =
          (scanPosts fs today ((entries.filter (fun e => e.isDirectory)).map
            (fun e => e.name))).filter
              (fun p => decide (jsDateParse p.date = some v)))) ∧
    load fsC4 todayW = .ok [postB4, postA4, postC4] := by
  constructor
  · intro fs today entries posts hroot hload hvalid
    rw [load_ok_eq hroot] at hload
    injection hload with hposts
    subst hposts
    have hvalscan : ∀ p ∈ scanPosts fs today
        ((entries.filter (fun e => e.isDirectory)).map (fun e => e.name)),
        (jsDateParse p.date).isSome = true :=
      fun p hp => hvalid p ((jsSortPosts_perm _).mem_iff.mpr hp)
    constructor
    · refine List.Pairwise.imp ?_ (pairwise_jsSortPosts _ hvalscan)
      intro a b hab x y hx hy
      unfold jsLe at hab
      rw [hx, hy] at hab
      simp at hab
      omega
    · intro v
      apply filter_jsSortPosts
      intro a b hqa hqb
      have hva := of_decide_eq_true hqa
      have hvb := of_decide_eq_true hqb
      unfold jsLe
      rw [hva, hvb]
      simp
  · rfl

theorem sorted_by_parsed_date_descending_and_stable_witness :
    [postB4, postA4, postC4].filter
        (fun p => decide (jsDateParse p.date = some 1705276800000)) =
      (scanPosts fsC4 todayW ((entriesC4.filter (fun e => e.isDirectory)).map
        (fun e => e.name))).filter
          (fun p => decide (jsDateParse p.date = some 1705276800000)) :=
  (sorted_by_parsed_date_descending_and_stable.1 fsC4 todayW entriesC4
    [postB4, postA4, postC4] rfl (by rfl) (by decide)).2 1705276800000

/-! ## C6: quote stripping and numeric coercion -/

/-- The spec's quote-stripping condition: the first and the last character
of the value are the same quote character. -/
def specQuoteCond (v : List Char) : Prop :=
  ∃ q, (q = '"' ∨ q = '\'') ∧ v.head? = some q ∧ v.getLast? = some q

def dC6 : List Char :=
  cs "---\nreadingTime: 5\nquoted: \"5\"\ngreeting: hello\ndate: 2024-01-15\n---\nB"

/-- C6: surrounding quotes are stripped exactly when the first and last
character of the trimmed value are the same quote character, and the
quote-stripped value is stored as a number exactly when JavaScript parses
it as a number: `5` (quoted or unquoted) becomes the number 5, `hello`
stays a string, `2024-01-15` stays a string because of the hyphens — also
end to end through `parseFrontmatter`. -/
theorem quote_stripping_and_numeric_coercion :
    (∀ v : List Char, specQuoteCond v → stripQuotes v = (v.drop 1).dropLast) ∧
    (∀ v : List Char, ¬ specQuoteCond v → stripQuotes v = v) ∧
    coerceValue (cs "5") = FMValue.num (JsNum.val 5) ∧
    coerceValue (stripQuotes (cs "\"5\"")) = FMValue.num (JsNum.val 5) ∧
    coerceValue (cs "hello") = FMValue.str (cs "hello") ∧
    coerceValue (cs "2024-01-15") = FMValue.str (cs "2024-01-15") ∧
    (parseFrontmatter dC6).frontmatter =
      [(cs "readingTime", FMValue.num (JsNum.val 5)),
       (cs "quoted", FMValue.num (JsNum.val 5)),
       (cs "greeting", FMValue.str (cs "hello")),
       (cs "date", FMValue.str (cs "2024-01-15"))] := by
  refine ⟨?_, ?_, by decide, by decide, by decide, by decide, by decide⟩
  · rintro v ⟨q, hq, h1, h2⟩
    unfold stripQuotes
    rcases hq with hq | hq <;> subst hq
    · rw [if_pos (Or.inl ⟨h1, h2⟩)]
    · rw [if_pos (Or.inr ⟨h1, h2⟩)]
  · intro v h
    unfold stripQuotes
    split
    next hcond =>
      exfalso
      rcases hcond with ⟨h1, h2⟩ | ⟨h1, h2⟩
      · exact h ⟨'"', Or.inl rfl, h1, h2⟩
      · exact h ⟨'\'', Or.inr rfl, h1, h2⟩
    next => rfl

theorem quote_stripping_and_numeric_coercion_witness :
    stripQuotes (cs "'5'") = cs "5" ∧ stripQuotes (cs "a'") = cs "a'" := by
  constructor
  · have h := quote_stripping_and_numeric_coercion.1 (cs "'5'")
      ⟨'\'', Or.inr rfl, by decide, by decide⟩
    rw [h]
    decide
  · apply quote_stripping_and_numeric_coercion.2.1 (cs "a'")
    rintro ⟨q, hq, h1, h2⟩
    have he : (cs "a'").head? = some 'a' := by decide
    have hqa : some 'a' = some q := he.symm.trans h1
    injection hqa with hqa
    rcases hq with hq | hq <;> rw [← hqa] at hq <;> exact absurd hq (by decide)

/-! ## C7: typed field extraction with documented defaults -/

/-- The spec's defaulting policy for one record: each field takes the
extracted frontmatter value exactly when that value has the expected
scalar type, and otherwise takes the documented default (`Untitled`,
empty description, the current date, reading time 5, `General`,
`featured = false`). -/
def specFieldPolicy (fm : FieldMap) (today : List Char) (r : BlogPost) : Prop :=
  ((∀ s, fmGet fm (cs "title") = some (.str s) → r.title = s) ∧
    ((¬ ∃ s, fmGet fm (cs "title") = some (.str s)) → r.title = cs "Untitled")) ∧
  ((∀ s, fmGet fm (cs "description") = some (.str s) → r.description = s) ∧
    ((¬ ∃ s, fmGet fm (cs "description") = some (.str s)) → r.description = [])) ∧
  ((∀ s, fmGet fm (cs "date") = some (.str s) → r.date = s) ∧
    ((¬ ∃ s, fmGet fm (cs "date") = some (.str s)) → r.date = today)) ∧
  ((∀ n, fmGet fm (cs "readingTime") = some (.num n) → r.readingTime = n) ∧
    ((¬ ∃ n, fmGet fm (cs "readingTime") = some (.num n)) →
      r.readingTime = JsNum.val 5)) ∧
  ((∀ s, fmGet fm (cs "category") = some (.str s) → r.category = s) ∧
    ((¬ ∃ s, fmGet fm (cs "category") = some (.str s)) → r.category = cs "General")) ∧
  ((∀ b, fmGet fm (cs "featured") = some (.bool b) → r.featured = b) ∧
    ((¬ ∃ b, fmGet fm (cs "featured") = some (.bool b)) → r.featured = false))

def dC7 : List Char := cs "---\nreadingTime: fast\n---\nbody"

def fsC7 : FileSystem :=
  { rootEntries := some [{ name := cs "post7", isDirectory := true }]
    readFile := fun slug => if slug = cs "post7" then some dC7 else none }

def postC7 : BlogPost :=
  { slug := cs "post7", title := cs "Untitled", description := []
    date := todayW, readingTime := JsNum.val 5, category := cs "General"
    featured := false }

/-- C7: every record built by the aggregator obeys the spec's defaulting
policy — a frontmatter value is used only when it has the expected scalar
type, otherwise the documented default applies; in particular a
readingTime that parsed as a string is discarded in favor of 5, never
coerced, as the end-to-end run on a `readingTime: fast` post shows. -/
theorem fields_typed_or_default :
    (∀ (slug : List Char) (fm : FieldMap) (today : List Char),
      specFieldPolicy fm today (mkBlogPost slug fm today)) ∧
    (∀ (slug : List Char) (fm : FieldMap) (today s : List Char),
      fmGet fm (cs "readingTime") = some (.str s) →
      (mkBlogPost slug fm today).readingTime = JsNum.val 5) ∧
    load fsC7 todayW = .ok [postC7] := by
  refine ⟨?_, ?_, by rfl⟩
  · intro slug fm today
    refine ⟨⟨?_, ?_⟩, ⟨?_, ?_⟩, ⟨?_, ?_⟩, ⟨?_, ?_⟩, ⟨?_, ?_⟩, ⟨?_, ?_⟩⟩
    · intro s h; simp [mkBlogPost, h]
    · intro hn
      cases hg : fmGet fm (cs "title") with
      | none => simp [mkBlogPost, hg]
      | some v =>
        cases v with
        | str s => exact absurd ⟨s, hg⟩ hn
        | num n => simp [mkBlogPost, hg]
        | bool b => simp [mkBlogPost, hg]
    · intro s h; simp [mkBlogPost, h]
    · intro hn
      cases hg : fmGet fm (cs "description") with
      | none => simp [mkBlogPost, hg]
      | some v =>
        cases v with
        | str s => exact absurd ⟨s, hg⟩ hn
        | num n => simp [mkBlogPost, hg]
        | bool b => simp [mkBlogPost, hg]
    · intro s h; simp [mkBlogPost, h]
    · intro hn
      cases hg : fmGet fm (cs "date") with
      | none => simp [mkBlogPost, hg]
      | some v =>
        cases v with
        | str s => exact absurd ⟨s, hg⟩ hn
        | num n => simp [mkBlogPost, hg]
        | bool b => simp [mkBlogPost, hg]
    · intro n h; simp [mkBlogPost, h]
    · intro hn
      cases hg : fmGet fm (cs "readingTime") with
      | none => simp [mkBlogPost, hg]
      | some v =>
        cases v with
        | str s => simp [mkBlogPost, hg]
        | num n => exact absurd ⟨n, hg⟩ hn
        | bool b => simp [mkBlogPost, hg]
    · intro s h; simp [mkBlogPost, h]
    · intro hn
      cases hg : fmGet fm (cs "category") with
      | none => simp [mkBlogPost, hg]
      | some v =>
        cases v with
        | str s => exact absurd ⟨s, hg⟩ hn
        | num n => simp [mkBlogPost, hg]
        | bool b => simp [mkBlogPost, hg]
    · intro b h; simp [mkBlogPost, h]
    · intro hn
      cases hg : fmGet fm (cs "featured") with
      | none => simp [mkBlogPost, hg]
      | some v =>
        cases v with
        | str s => simp [mkBlogPost, hg]
        | num n => simp [mkBlogPost, hg]
        | bool b => exact absurd ⟨b, hg⟩ hn
  · intro slug fm today s h
    simp [mkBlogPost, h]

def fmC7 : FieldMap := [(cs "readingTime", FMValue.str (cs "fast"))]

theorem fields_typed_or_default_witness :
    (mkBlogPost (cs "p") fmC7 todayW).readingTime = JsNum.val 5 :=
  fields_typed_or_default.2.1 (cs "p") fmC7 todayW (cs "fast") (by decide)
